import Mathlib

/-!
Shallow embedding of the ShapeBuilder vector-path editor
(`src/site/src/components/ShapeBuilder/index.js` and the adaptive-flattening
variant `src/unnamed/part_001`).  JavaScript numbers are modelled as exact
rationals, JS arrays as Lean lists, and the React `useState` cells as fields
of an explicit `EditorState` record.  Each definition transcribes the source
function of the same name; deviations (such as the explicit recursion fuel of
`flattenFuel`) are noted in the doc comments.
-/

namespace ShapeBuilder

/-- A 2D point with rational coordinates (models a JS `{x, y}` object). -/
structure Pt where
  x : ℚ
  y : ℚ
deriving DecidableEq, Repr

/-- An anchor of the path: a position `(x, y)` together with two independent
handle points, as stored in the `anchors` state array
(`{x, y, handleIn:{x,y}, handleOut:{x,y}}`). -/
structure Anchor where
  x : ℚ
  y : ℚ
  handleIn : Pt
  handleOut : Pt
deriving DecidableEq, Repr

/-- Which of the two handles of an anchor is addressed (the JS code passes
the string `"handleIn"` or `"handleOut"`). -/
inductive HandleKey where
  | handleIn
  | handleOut
deriving DecidableEq, Repr

/-- Read the handle selected by `k` (models `anchor[handleKey]`). -/
def Anchor.getHandle (a : Anchor) : HandleKey → Pt
  | .handleIn => a.handleIn
  | .handleOut => a.handleOut

/-- Replace the handle selected by `k` (models `anchor[handleKey] = {...}`). -/
def Anchor.setHandle (a : Anchor) : HandleKey → Pt → Anchor
  | .handleIn, p => { a with handleIn := p }
  | .handleOut, p => { a with handleOut := p }

/-- The opposite handle key, as computed by
`handleKey === "handleOut" ? "handleIn" : "handleOut"`. -/
def HandleKey.opposite : HandleKey → HandleKey
  | .handleOut => .handleIn
  | .handleIn => .handleOut

/-- Transcription of `updateAnchorHandle` (identical in both source files):
set handle `handleKey` of `anchors[index]` to `(hx, hy)`; when `symmetric`
also move the opposite handle to the reflection of `(hx, hy)` through the
anchor position.  An out-of-range `index` leaves the array unchanged
(`if (!next[index]) return prev`). -/
def updateAnchorHandle (anchors : List Anchor) (index : ℕ) (handleKey : HandleKey)
    (hx hy : ℚ) (symmetric : Bool) : List Anchor :=
  match anchors.get? index with
  | none => anchors
  | some a =>
    let a1 := a.setHandle handleKey ⟨hx, hy⟩
    if symmetric then
      let ax := a1.x
      let ay := a1.y
      let dx := hx - ax
      let dy := hy - ay
      anchors.set index (a1.setHandle handleKey.opposite ⟨ax - dx, ay - dy⟩)
    else
      anchors.set index a1

/-- The `dragState` values of the source (`null` is modelled by `Option`). -/
inductive DragState where
  | placing (index : ℕ) (start : Pt)
  | handleDrag (index : ℕ) (handleKey : HandleKey) (symmetric : Bool)
  | moveAnchor (index : ℕ) (start : Pt)
deriving DecidableEq, Repr

/-- The mutable editor state: the `anchors`, `isClosed` and `dragState`
React state cells. -/
structure EditorState where
  anchors : List Anchor
  isClosed : Bool
  dragState : Option DragState
deriving DecidableEq, Repr

/-- The state of a freshly mounted editor (`useState([])`, `useState(false)`,
`useState(null)`). -/
def initialState : EditorState := ⟨[], false, none⟩

/-- Transcription of `addAnchor`: append a fresh anchor whose two handles
coincide with its position; when `placing`, start a placing drag whose index
is the previous array length (the stale `anchors.length` captured by the JS
closure). -/
def addAnchor (x y : ℚ) (placing : Bool) (s : EditorState) : EditorState :=
  { s with
    anchors := s.anchors ++ [⟨x, y, ⟨x, y⟩, ⟨x, y⟩⟩],
    dragState := if placing then some (.placing s.anchors.length ⟨x, y⟩) else s.dragState }

/-- The closing/snapping radius in pixels (`const threshold = 6`). -/
def closingThreshold : ℚ := 6

/-- Transcription of `onMouseDown` (primary press on the canvas): when the
shape is closed, ignore; when there are at least 3 anchors and the press is
within the closing radius of anchor 0 (squared distance test), close the
shape; otherwise append a new anchor. -/
def onMouseDown (s : EditorState) (pt : Pt) : EditorState :=
  if s.isClosed then s
  else
    match s.anchors with
    | [] => addAnchor pt.x pt.y true s
    | first :: _ =>
      if 3 ≤ s.anchors.length ∧
          (pt.x - first.x) * (pt.x - first.x) + (pt.y - first.y) * (pt.y - first.y) ≤
            closingThreshold * closingThreshold then
        { s with isClosed := true, dragState := none }
      else
        addAnchor pt.x pt.y true s

/-- Transcription of `onAnchorMouseDown`: a press directly on anchor `index`;
pressing anchor 0 of an unclosed shape with at least 3 anchors closes the
shape, otherwise a move-anchor drag starts at the press point. -/
def onAnchorMouseDown (s : EditorState) (index : ℕ) (pt : Pt) : EditorState :=
  if ¬s.isClosed ∧ index = 0 ∧ 3 ≤ s.anchors.length then
    { s with isClosed := true, dragState := none }
  else
    { s with dragState := some (.moveAnchor index pt) }

/-- Transcription of the Enter branch of `onKeyDown`:
`if (e.key === "Enter" && anchors.length >= 3) setIsClosed(true)`. -/
def onKeyEnter (s : EditorState) : EditorState :=
  if 3 ≤ s.anchors.length then { s with isClosed := true } else s

/-- Transcription of the Ctrl/Cmd+Z branch of `onKeyDown`:
`setAnchors(prev => prev.slice(0, -1)); setIsClosed(false)`. -/
def onKeyUndo (s : EditorState) : EditorState :=
  { s with anchors := s.anchors.dropLast, isClosed := false }

/-- Transcription of the Escape branch of `onKeyDown`: close when at least
3 anchors exist, and cancel any active drag. -/
def onKeyEscape (s : EditorState) : EditorState :=
  { s with
    isClosed := if 3 ≤ s.anchors.length then true else s.isClosed,
    dragState := none }

/-- Transcription of the canvas `onDoubleClick` handler:
`if (!isClosed && anchors.length >= 3) setIsClosed(true)`. -/
def onDoubleClick (s : EditorState) : EditorState :=
  if ¬s.isClosed ∧ 3 ≤ s.anchors.length then { s with isClosed := true } else s

/-- Transcription of the host-level Close Shape button:
`onClick={() => setIsClosed(true)}` — unconditional, with no anchor-count
guard. -/
def closeShapeButton (s : EditorState) : EditorState :=
  { s with isClosed := true }

/-- Transcription of the anchors update inside the move-anchor effect:
translate position and both handles of `anchors[idx]` by `(dx, dy)`; a stale
index leaves the array unchanged (`if (!next[idx]) return prev`). -/
def moveAnchorUpdate (anchors : List Anchor) (idx : ℕ) (dx dy : ℚ) : List Anchor :=
  match anchors.get? idx with
  | none => anchors
  | some a =>
    anchors.set idx
      ⟨a.x + dx, a.y + dy,
        ⟨a.handleIn.x + dx, a.handleIn.y + dy⟩,
        ⟨a.handleOut.x + dx, a.handleOut.y + dy⟩⟩

/-- Transcription of the `move` listener of the move-anchor effect: when a
move-anchor drag is active, translate the dragged anchor by the pointer delta
and advance the drag's reference point to the current pointer. -/
def moveAnchorMove (s : EditorState) (pt : Pt) : EditorState :=
  match s.dragState with
  | some (.moveAnchor idx start) =>
    { s with
      anchors := moveAnchorUpdate s.anchors idx (pt.x - start.x) (pt.y - start.y),
      dragState := some (.moveAnchor idx pt) }
  | _ => s

/-- The flattening tolerance of the adaptive exporter
(`const FLATNESS_TOLERANCE = 0.5`). -/
def FLATNESS_TOLERANCE : ℚ := 1 / 2

/-- Transcription of `distPointToLineSq`: squared distance from `(px, py)`
to its (unclamped) projection onto the line through `(x1, y1)` and
`(x2, y2)`; the JS `lenSq = C*C + D*D || 1` fallback replaces a zero squared
chord length by 1. -/
def distPointToLineSq (px py x1 y1 x2 y2 : ℚ) : ℚ :=
  let a := px - x1
  let b := py - y1
  let c := x2 - x1
  let d := y2 - y1
  let dot := a * c + b * d
  let lenSq := if c * c + d * d = 0 then 1 else c * c + d * d
  let param := dot / lenSq
  let xx := x1 + param * c
  let yy := y1 + param * d
  let dx := px - xx
  let dy := py - yy
  dx * dx + dy * dy

/-- Transcription of `isFlatEnough`: both interior control points lie within
squared distance `tolSq` of the chord `(p0, p3)`. -/
def isFlatEnough (p0 p1 p2 p3 : Pt) (tolSq : ℚ) : Prop :=
  distPointToLineSq p1.x p1.y p0.x p0.y p3.x p3.y ≤ tolSq ∧
    distPointToLineSq p2.x p2.y p0.x p0.y p3.x p3.y ≤ tolSq

instance (p0 p1 p2 p3 : Pt) (tolSq : ℚ) : Decidable (isFlatEnough p0 p1 p2 p3 tolSq) :=
  instDecidableAnd

/-- A cubic bezier segment given by its four control points. -/
structure Cubic where
  p0 : Pt
  p1 : Pt
  p2 : Pt
  p3 : Pt
deriving DecidableEq, Repr

/-- Transcription of `subdivideBezier`: de Casteljau halving of a cubic at
parameter 1/2, returning the left and right halves. -/
def subdivideBezier (p0 p1 p2 p3 : Pt) : Cubic × Cubic :=
  let p01 : Pt := ⟨(p0.x + p1.x) / 2, (p0.y + p1.y) / 2⟩
  let p12 : Pt := ⟨(p1.x + p2.x) / 2, (p1.y + p2.y) / 2⟩
  let p23 : Pt := ⟨(p2.x + p3.x) / 2, (p2.y + p3.y) / 2⟩
  let p012 : Pt := ⟨(p01.x + p12.x) / 2, (p01.y + p12.y) / 2⟩
  let p123 : Pt := ⟨(p12.x + p23.x) / 2, (p12.y + p23.y) / 2⟩
  let p0123 : Pt := ⟨(p012.x + p123.x) / 2, (p012.y + p123.y) / 2⟩
  (⟨p0, p01, p012, p0123⟩, ⟨p0123, p123, p23, p3⟩)

/-- Fuel-indexed transcription of `flattenBezierAdaptive`.  The JS function
recurses with no depth cap whatsoever; to embed it as a total function the
recursion budget is made explicit: `some pts` means the recursion completed
within depth `fuel` and emitted `pts` (exactly the points the JS code pushes
for this segment, in order), while `none` means the JS recursion descends
deeper than `fuel`. -/
def flattenFuel : ℕ → Pt → Pt → Pt → Pt → ℚ → Option (List Pt)
  | 0, p0, p1, p2, p3, tolSq =>
    if isFlatEnough p0 p1 p2 p3 tolSq then some [p3] else none
  | fuel + 1, p0, p1, p2, p3, tolSq =>
    if isFlatEnough p0 p1 p2 p3 tolSq then some [p3]
    else
      let lr := subdivideBezier p0 p1 p2 p3
      match flattenFuel fuel lr.1.p0 lr.1.p1 lr.1.p2 lr.1.p3 tolSq with
      | none => none
      | some ls =>
        match flattenFuel fuel lr.2.p0 lr.2.p1 lr.2.p2 lr.2.p3 tolSq with
        | none => none
        | some rs => some (ls ++ rs)

/-- The larger of the squared norms of the two second differences of a
cubic's control polygon; it quarters under each de Casteljau halving and
bounds the distances tested by `isFlatEnough`, so it measures how far the
adaptive recursion still has to subdivide. -/
def secondDiffMax (p0 p1 p2 p3 : Pt) : ℚ :=
  max ((p0.x - 2 * p1.x + p2.x) ^ 2 + (p0.y - 2 * p1.y + p2.y) ^ 2)
    ((p1.x - 2 * p2.x + p3.x) ^ 2 + (p1.y - 2 * p2.y + p3.y) ^ 2)

/-- A recursion budget sufficient for `flattenFuel` whenever `0 < tolSq`:
the least `n` with `secondDiffMax ≤ 16 ^ n * tolSq` (0 when `tolSq ≤ 0`,
where the JS recursion itself need not terminate). -/
def fuelFor (p0 p1 p2 p3 : Pt) (tolSq : ℚ) : ℕ :=
  if h : 0 < tolSq then
    Nat.find (p := fun n => secondDiffMax p0 p1 p2 p3 ≤ 16 ^ n * tolSq)
      (by
        obtain ⟨n, hn⟩ :=
          pow_unbounded_of_one_lt (secondDiffMax p0 p1 p2 p3 / tolSq)
            (by norm_num : (1 : ℚ) < 16)
        exact ⟨n, le_of_lt ((div_lt_iff₀ h).mp hn)⟩)
  else 0

/-- The total version of `flattenBezierAdaptive` used by the export
pipeline: run the fuelled recursion with a provably sufficient budget.  For
`0 < tolSq` the fallback default is never taken. -/
def flattenBezierAdaptive (p0 p1 p2 p3 : Pt) (tolSq : ℚ) : List Pt :=
  (flattenFuel (fuelFor p0 p1 p2 p3 tolSq) p0 p1 p2 p3 tolSq).getD [p3]

/-- The consecutive anchor pairs `(anchors[i-1], anchors[i])` traversed by
the flattening loops (`for (let i = 1; i < anchors.length; i++)`). -/
def segPairs (anchors : List Anchor) : List (Anchor × Anchor) :=
  anchors.zip anchors.tail

/-- Transcription of the adaptive `flattenToPoints` of `src/unnamed/part_001`:
start with anchor 0's position, then flatten each consecutive cubic, then —
when closed with at least 2 anchors — the wrap-around cubic from the last
anchor back to the first. -/
def flattenToPoints (anchors : List Anchor) (isClosed : Bool) : List Pt :=
  match anchors with
  | [] => []
  | a0 :: rest =>
    let tolSq := FLATNESS_TOLERANCE * FLATNESS_TOLERANCE
    let pts : List Pt :=
      ⟨a0.x, a0.y⟩ ::
        (List.map
          (fun pc =>
            flattenBezierAdaptive ⟨pc.1.x, pc.1.y⟩ pc.1.handleOut pc.2.handleIn
              ⟨pc.2.x, pc.2.y⟩ tolSq)
          (segPairs (a0 :: rest))).flatten
    if isClosed ∧ 2 ≤ (a0 :: rest).length then
      let last := (a0 :: rest).getLast (List.cons_ne_nil a0 rest)
      pts ++
        flattenBezierAdaptive ⟨last.x, last.y⟩ last.handleOut a0.handleIn
          ⟨a0.x, a0.y⟩ tolSq
    else pts

/-- The per-curve sample count of the fixed-sampling exporter of
`src/site/src/components/ShapeBuilder/index.js` (`const BEZIER_SEGMENTS = 20`). -/
def BEZIER_SEGMENTS : ℕ := 20

/-- Transcription of `cubicAt`: one coordinate of a cubic bezier evaluated
at parameter `t`. -/
def cubicAt (p0 p1 p2 p3 t : ℚ) : ℚ :=
  let mt := 1 - t
  mt * mt * mt * p0 + 3 * mt * mt * t * p1 + 3 * mt * t * t * p2 + t * t * t * p3

/-- The `s = 0 .. BEZIER_SEGMENTS` sampling loop of the fixed-sampling
`flattenToPoints`, for one cubic segment. -/
def sampleSegment (px0 py0 px1 py1 px2 py2 px3 py3 : ℚ) : List Pt :=
  (List.range (BEZIER_SEGMENTS + 1)).map fun (s : ℕ) =>
    let t : ℚ := (s : ℚ) / (BEZIER_SEGMENTS : ℚ)
    ⟨cubicAt px0 px1 px2 px3 t, cubicAt py0 py1 py2 py3 t⟩

/-- Transcription of the fixed-sampling `flattenToPoints` of
`src/site/src/components/ShapeBuilder/index.js`: sample each consecutive
cubic at 21 evenly spaced parameters (and the wrap-around cubic when closed
with at least 2 anchors).  Note that it emits no stand-alone start point, so
a single-anchor shape yields the empty list. -/
def flattenToPointsFixed (anchors : List Anchor) (isClosed : Bool) : List Pt :=
  match anchors with
  | [] => []
  | a0 :: rest =>
    let pts : List Pt :=
      (List.map
        (fun pc =>
          sampleSegment pc.1.x pc.1.y pc.1.handleOut.x pc.1.handleOut.y
            pc.2.handleIn.x pc.2.handleIn.y pc.2.x pc.2.y)
        (segPairs (a0 :: rest))).flatten
    if isClosed ∧ 2 ≤ (a0 :: rest).length then
      let last := (a0 :: rest).getLast (List.cons_ne_nil a0 rest)
      pts ++
        sampleSegment last.x last.y last.handleOut.x last.handleOut.y
          a0.handleIn.x a0.handleIn.y a0.x a0.y
    else pts

/-- Rounding to 4 fractional digits, the model of
`Number(v.toFixed(4))`: JS `toFixed` rounds to the nearest 4-decimal value
and breaks ties towards the larger value, which is exactly `round` (floor of
`v + 1/2`) at scale `10^4`. -/
def round4 (q : ℚ) : ℚ := ((round (q * 10000) : ℤ) : ℚ) / 10000

/-- The JS spread `Math.min(x, ...l)`: fold of `min` over a list with seed. -/
def jsMin (x : ℚ) (l : List ℚ) : ℚ := l.foldl min x

/-- The JS spread `Math.max(x, ...l)`: fold of `max` over a list with seed. -/
def jsMax (x : ℚ) (l : List ℚ) : ℚ := l.foldl max x

/-- Transcription of `normalizePoints` (identical in both source files):
empty input maps to the empty list; otherwise compute the bounding box of
the polyline, let `size = Math.max(maxX - minX, maxY - minY) || 1`, and map
each point to `(((p - center) * 2) / size)` rounded to 4 digits. -/
def normalizePoints (pts : List Pt) : List Pt :=
  match pts with
  | [] => []
  | p :: rest =>
    let minX := jsMin p.x (rest.map Pt.x)
    let maxX := jsMax p.x (rest.map Pt.x)
    let minY := jsMin p.y (rest.map Pt.y)
    let maxY := jsMax p.y (rest.map Pt.y)
    let cx := (minX + maxX) / 2
    let cy := (minY + maxY) / 2
    let size0 := max (maxX - minX) (maxY - minY)
    let size := if size0 = 0 then 1 else size0
    (p :: rest).map fun q =>
      ⟨round4 ((q.x - cx) * 2 / size), round4 ((q.y - cy) * 2 / size)⟩

/-- The normalizer as worded by the specification: center is the midpoint of
the axis-aligned bounding box and the divisor is `max(width, height)`,
falling back to 1 when both width and height are 0.  Stated separately from
`normalizePoints` so that agreement with the code's `|| 1` fallback is a
theorem, not a definition. -/
def specNormalizePoints (pts : List Pt) : List Pt :=
  match pts with
  | [] => []
  | p :: rest =>
    let minX := jsMin p.x (rest.map Pt.x)
    let maxX := jsMax p.x (rest.map Pt.x)
    let minY := jsMin p.y (rest.map Pt.y)
    let maxY := jsMax p.y (rest.map Pt.y)
    let width := maxX - minX
    let height := maxY - minY
    let cx := (minX + maxX) / 2
    let cy := (minY + maxY) / 2
    let divisor := if width = 0 ∧ height = 0 then 1 else max width height
    (p :: rest).map fun q =>
      ⟨round4 ((q.x - cx) * 2 / divisor), round4 ((q.y - cy) * 2 / divisor)⟩

/-- The alternating `x,y,x,y,...` sequence produced by `normalized.flat()`. -/
def exportList (pts : List Pt) : List ℚ :=
  ((normalizePoints pts).map fun p => [p.x, p.y]).flatten

/-- Decimal rendering of a coordinate that is an integer multiple of
`1/10000`, as JS number-to-string conversion prints it after
`Number(v.toFixed(4))`: optional sign, integer part, and the 4 fractional
digits with trailing zeros removed (no fractional part when they are all
zero). -/
def render4 (q : ℚ) : String :=
  let k : ℤ := (q * 10000).num
  let sign := if k < 0 then "-" else ""
  let n := k.natAbs
  let ip := n / 10000
  let fp := n % 10000
  if fp = 0 then sign ++ toString ip
  else
    let ds := toString fp
    let padded := String.mk (List.replicate (4 - ds.length) '0') ++ ds
    let trimmed := String.mk ((padded.toList.reverse.dropWhile fun c => c = '0').reverse)
    sign ++ toString ip ++ "." ++ trimmed

/-- The serialization step of `computeExportString`:
`normalized.flat().join(" ")`. -/
def exportOfPoints (pts : List Pt) : String :=
  String.intercalate " " ((exportList pts).map render4)

/-- Transcription of `computeExportString` of `src/unnamed/part_001`:
flatten the shape, normalize, and join with single spaces. -/
def computeExportString (anchors : List Anchor) (isClosed : Bool) : String :=
  exportOfPoints (flattenToPoints anchors isClosed)

/-- Modelled from the spec: the repository's sources only declare the scale
state cell (`const [scale, setScale] = useState(1)` in `src/unnamed/part_001`);
no scale-about-centroid implementation exists under `src/`.  This is the
spec's §4.7 recomputation rule for one anchor: `centroid +
(baselinePosition - centroid) * multiplier`, applied to the position and
both handles. -/
def scaleAnchorAbout (c : Pt) (m : ℚ) (a : Anchor) : Anchor :=
  ⟨c.x + (a.x - c.x) * m, c.y + (a.y - c.y) * m,
    ⟨c.x + (a.handleIn.x - c.x) * m, c.y + (a.handleIn.y - c.y) * m⟩,
    ⟨c.x + (a.handleOut.x - c.x) * m, c.y + (a.handleOut.y - c.y) * m⟩⟩

/-- Modelled from the spec: the centroid of the captured baseline, "derived
from the baseline's bounding box" (§4.7); the box is taken over all captured
anchor and handle positions, and the centroid is its midpoint.  An empty
baseline gets the origin (the operation maps an empty shape to itself, so
the choice is immaterial). -/
def baselineCentroid (base : List Anchor) : Pt :=
  match base with
  | [] => ⟨0, 0⟩
  | a :: rest =>
    let xs := ((a :: rest).map fun b => [b.x, b.handleIn.x, b.handleOut.x]).flatten
    let ys := ((a :: rest).map fun b => [b.y, b.handleIn.y, b.handleOut.y]).flatten
    ⟨(jsMin a.x xs + jsMax a.x xs) / 2, (jsMin a.y ys + jsMax a.y ys) / 2⟩

/-- Modelled from the spec: one invocation of scale-about-centroid (§4.7).
The first component is the baseline cell (captured from the current anchors
when no baseline exists yet, kept unchanged afterwards); the second is the
new anchor array, recomputed from the baseline — never from the current,
possibly already-scaled, anchors — as `centroid + (baseline - centroid) *
multiplier`. -/
def scaleAboutCentroid (baseline : Option (List Anchor)) (current : List Anchor)
    (m : ℚ) : Option (List Anchor) × List Anchor :=
  let base := baseline.getD current
  let c := baselineCentroid base
  (some base, base.map (scaleAnchorAbout c m))

/-- The left spine of the cubic `(0,0), (0,H), (W,H), (W,0)` with `W = 2^50`
and `H = 2^60`: `spineCubic h` is the control polygon of that curve
restricted to the parameter interval `[0, h]`.  `spineCubic 1` is the
original cubic, and repeated de Casteljau halving maps `spineCubic h` to
`spineCubic (h/2)`, so this family walks the leftmost path of the adaptive
subdivision tree. -/
def spineCubic (h : ℚ) : Cubic :=
  ⟨⟨0, 0⟩, ⟨0, 2 ^ 60 * h⟩,
    ⟨2 ^ 50 * h ^ 2, 2 * 2 ^ 60 * h - 2 ^ 60 * h ^ 2⟩,
    ⟨2 ^ 50 * h ^ 2 * (3 - 2 * h), 3 * 2 ^ 60 * h * (1 - h)⟩⟩

/-! ### Helper lemmas -/

theorem jsMin_le_seed (a : ℚ) (l : List ℚ) : jsMin a l ≤ a := by
  induction l generalizing a with
  | nil => exact le_refl a
  | cons c t ih => exact le_trans (ih (min a c)) (min_le_left a c)

theorem jsMin_le_mem (a q : ℚ) (l : List ℚ) (hq : q ∈ l) : jsMin a l ≤ q := by
  induction l generalizing a with
  | nil => cases hq
  | cons c t ih =>
    rcases List.mem_cons.mp hq with rfl | hmem
    · exact le_trans (jsMin_le_seed (min a q) t) (min_le_right a q)
    · exact ih (min a c) hmem

theorem seed_le_jsMax (a : ℚ) (l : List ℚ) : a ≤ jsMax a l := by
  induction l generalizing a with
  | nil => exact le_refl a
  | cons c t ih => exact le_trans (le_max_left a c) (ih (max a c))

theorem mem_le_jsMax (a q : ℚ) (l : List ℚ) (hq : q ∈ l) : q ≤ jsMax a l := by
  induction l generalizing a with
  | nil => cases hq
  | cons c t ih =>
    rcases List.mem_cons.mp hq with rfl | hmem
    · exact le_trans (le_max_right a q) (seed_le_jsMax (max a q) t)
    · exact ih (max a c) hmem

/-! ### Geometry of the adaptive flattening recursion (claim C2) -/

theorem distPointToLineSq_eq (px py x1 y1 x2 y2 : ℚ)
    (h : (x2 - x1) * (x2 - x1) + (y2 - y1) * (y2 - y1) ≠ 0) :
    distPointToLineSq px py x1 y1 x2 y2 =
      ((px - x1) -
            ((px - x1) * (x2 - x1) + (py - y1) * (y2 - y1)) /
              ((x2 - x1) * (x2 - x1) + (y2 - y1) * (y2 - y1)) * (x2 - x1)) ^ 2 +
        ((py - y1) -
            ((px - x1) * (x2 - x1) + (py - y1) * (y2 - y1)) /
              ((x2 - x1) * (x2 - x1) + (y2 - y1) * (y2 - y1)) * (y2 - y1)) ^ 2 := by
  dsimp only [distPointToLineSq]
  rw [if_neg h]
  ring

theorem distPointToLineSq_degenerate (px py x1 y1 x2 y2 : ℚ)
    (h : (x2 - x1) * (x2 - x1) + (y2 - y1) * (y2 - y1) = 0) :
    distPointToLineSq px py x1 y1 x2 y2 = (px - x1) ^ 2 + (py - y1) ^ 2 := by
  have hc : x2 - x1 = 0 := by nlinarith [sq_nonneg (x2 - x1), sq_nonneg (y2 - y1)]
  have hd : y2 - y1 = 0 := by nlinarith [sq_nonneg (x2 - x1), sq_nonneg (y2 - y1)]
  dsimp only [distPointToLineSq]
  rw [if_pos h, hc, hd]
  ring

theorem proj_dist_le (a b c d t : ℚ) (h : c * c + d * d ≠ 0) :
    (a - (a * c + b * d) / (c * c + d * d) * c) ^ 2 +
        (b - (a * c + b * d) / (c * c + d * d) * d) ^ 2 ≤
      (a - t * c) ^ 2 + (b - t * d) ^ 2 := by
  have hl : 0 < c * c + d * d :=
    lt_of_le_of_ne (add_nonneg (mul_self_nonneg c) (mul_self_nonneg d)) (Ne.symm h)
  have key :
      (a - t * c) ^ 2 + (b - t * d) ^ 2 -
          ((a - (a * c + b * d) / (c * c + d * d) * c) ^ 2 +
            (b - (a * c + b * d) / (c * c + d * d) * d) ^ 2) =
        ((a * c + b * d) - t * (c * c + d * d)) ^ 2 / (c * c + d * d) := by
    field_simp
    ring
  have hnn :
      0 ≤ ((a * c + b * d) - t * (c * c + d * d)) ^ 2 / (c * c + d * d) :=
    div_nonneg (sq_nonneg _) hl.le
  linarith

theorem distSq_p1_le_secondDiffMax (p0 p1 p2 p3 : Pt) :
    distPointToLineSq p1.x p1.y p0.x p0.y p3.x p3.y ≤ secondDiffMax p0 p1 p2 p3 := by
  have hA :
      (p0.x - 2 * p1.x + p2.x) ^ 2 + (p0.y - 2 * p1.y + p2.y) ^ 2 ≤
        secondDiffMax p0 p1 p2 p3 := le_max_left _ _
  have hB :
      (p1.x - 2 * p2.x + p3.x) ^ 2 + (p1.y - 2 * p2.y + p3.y) ^ 2 ≤
        secondDiffMax p0 p1 p2 p3 := le_max_right _ _
  by_cases h : (p3.x - p0.x) * (p3.x - p0.x) + (p3.y - p0.y) * (p3.y - p0.y) = 0
  · have h3x : p3.x = p0.x := by nlinarith [sq_nonneg (p3.x - p0.x), sq_nonneg (p3.y - p0.y)]
    have h3y : p3.y = p0.y := by nlinarith [sq_nonneg (p3.x - p0.x), sq_nonneg (p3.y - p0.y)]
    rw [distPointToLineSq_degenerate _ _ _ _ _ _ h]
    rw [h3x, h3y] at hB
    nlinarith [sq_nonneg ((p0.x - 2 * p1.x + p2.x) - (p1.x - 2 * p2.x + p0.x)),
      sq_nonneg ((p0.y - 2 * p1.y + p2.y) - (p1.y - 2 * p2.y + p0.y))]
  · rw [distPointToLineSq_eq _ _ _ _ _ _ h]
    refine le_trans (proj_dist_le (p1.x - p0.x) (p1.y - p0.y) (p3.x - p0.x) (p3.y - p0.y) (1 / 3) h) ?_
    nlinarith [sq_nonneg ((p0.x - 2 * p1.x + p2.x) - (p1.x - 2 * p2.x + p3.x)),
      sq_nonneg ((p0.y - 2 * p1.y + p2.y) - (p1.y - 2 * p2.y + p3.y))]

theorem distSq_p2_le_secondDiffMax (p0 p1 p2 p3 : Pt) :
    distPointToLineSq p2.x p2.y p0.x p0.y p3.x p3.y ≤ secondDiffMax p0 p1 p2 p3 := by
  have hA :
      (p0.x - 2 * p1.x + p2.x) ^ 2 + (p0.y - 2 * p1.y + p2.y) ^ 2 ≤
        secondDiffMax p0 p1 p2 p3 := le_max_left _ _
  have hB :
      (p1.x - 2 * p2.x + p3.x) ^ 2 + (p1.y - 2 * p2.y + p3.y) ^ 2 ≤
        secondDiffMax p0 p1 p2 p3 := le_max_right _ _
  by_cases h : (p3.x - p0.x) * (p3.x - p0.x) + (p3.y - p0.y) * (p3.y - p0.y) = 0
  · have h3x : p3.x = p0.x := by nlinarith [sq_nonneg (p3.x - p0.x), sq_nonneg (p3.y - p0.y)]
    have h3y : p3.y = p0.y := by nlinarith [sq_nonneg (p3.x - p0.x), sq_nonneg (p3.y - p0.y)]
    rw [distPointToLineSq_degenerate _ _ _ _ _ _ h]
    rw [h3x, h3y] at hB
    nlinarith [sq_nonneg ((p0.x - 2 * p1.x + p2.x) - (p1.x - 2 * p2.x + p0.x)),
      sq_nonneg ((p0.y - 2 * p1.y + p2.y) - (p1.y - 2 * p2.y + p0.y))]
  · rw [distPointToLineSq_eq _ _ _ _ _ _ h]
    refine le_trans (proj_dist_le (p2.x - p0.x) (p2.y - p0.y) (p3.x - p0.x) (p3.y - p0.y) (2 / 3) h) ?_
    nlinarith [sq_nonneg ((p0.x - 2 * p1.x + p2.x) - (p1.x - 2 * p2.x + p3.x)),
      sq_nonneg ((p0.y - 2 * p1.y + p2.y) - (p1.y - 2 * p2.y + p3.y))]

theorem isFlatEnough_of_secondDiffMax_le (p0 p1 p2 p3 : Pt) (tolSq : ℚ)
    (h : secondDiffMax p0 p1 p2 p3 ≤ tolSq) : isFlatEnough p0 p1 p2 p3 tolSq :=
  ⟨le_trans (distSq_p1_le_secondDiffMax p0 p1 p2 p3) h,
    le_trans (distSq_p2_le_secondDiffMax p0 p1 p2 p3) h⟩

theorem secondDiffMax_subdiv_left (p0 p1 p2 p3 : Pt) :
    secondDiffMax (subdivideBezier p0 p1 p2 p3).1.p0 (subdivideBezier p0 p1 p2 p3).1.p1
        (subdivideBezier p0 p1 p2 p3).1.p2 (subdivideBezier p0 p1 p2 p3).1.p3 ≤
      secondDiffMax p0 p1 p2 p3 / 16 := by
  have hA :
      (p0.x - 2 * p1.x + p2.x) ^ 2 + (p0.y - 2 * p1.y + p2.y) ^ 2 ≤
        secondDiffMax p0 p1 p2 p3 := le_max_left _ _
  have hB :
      (p1.x - 2 * p2.x + p3.x) ^ 2 + (p1.y - 2 * p2.y + p3.y) ^ 2 ≤
        secondDiffMax p0 p1 p2 p3 := le_max_right _ _
  dsimp only [subdivideBezier, secondDiffMax] at hA hB ⊢
  apply max_le
  · nlinarith []
  · nlinarith [sq_nonneg ((p0.x - 2 * p1.x + p2.x) - (p1.x - 2 * p2.x + p3.x)),
      sq_nonneg ((p0.y - 2 * p1.y + p2.y) - (p1.y - 2 * p2.y + p3.y))]

theorem secondDiffMax_subdiv_right (p0 p1 p2 p3 : Pt) :
    secondDiffMax (subdivideBezier p0 p1 p2 p3).2.p0 (subdivideBezier p0 p1 p2 p3).2.p1
        (subdivideBezier p0 p1 p2 p3).2.p2 (subdivideBezier p0 p1 p2 p3).2.p3 ≤
      secondDiffMax p0 p1 p2 p3 / 16 := by
  have hA :
      (p0.x - 2 * p1.x + p2.x) ^ 2 + (p0.y - 2 * p1.y + p2.y) ^ 2 ≤
        secondDiffMax p0 p1 p2 p3 := le_max_left _ _
  have hB :
      (p1.x - 2 * p2.x + p3.x) ^ 2 + (p1.y - 2 * p2.y + p3.y) ^ 2 ≤
        secondDiffMax p0 p1 p2 p3 := le_max_right _ _
  dsimp only [subdivideBezier, secondDiffMax] at hA hB ⊢
  apply max_le
  · nlinarith [sq_nonneg ((p0.x - 2 * p1.x + p2.x) - (p1.x - 2 * p2.x + p3.x)),
      sq_nonneg ((p0.y - 2 * p1.y + p2.y) - (p1.y - 2 * p2.y + p3.y))]
  · nlinarith []

theorem flattenFuel_isSome_of_bound (k : ℕ) :
    ∀ (p0 p1 p2 p3 : Pt) (tolSq : ℚ),
      secondDiffMax p0 p1 p2 p3 ≤ 16 ^ k * tolSq →
        (flattenFuel k p0 p1 p2 p3 tolSq).isSome = true := by
  induction k with
  | zero =>
    intro p0 p1 p2 p3 tolSq h
    rw [pow_zero, one_mul] at h
    simp only [flattenFuel, if_pos (isFlatEnough_of_secondDiffMax_le p0 p1 p2 p3 tolSq h)]
    rfl
  | succ k ih =>
    intro p0 p1 p2 p3 tolSq h
    by_cases hf : isFlatEnough p0 p1 p2 p3 tolSq
    · simp only [flattenFuel, if_pos hf]
      rfl
    · have hstep : secondDiffMax p0 p1 p2 p3 / 16 ≤ 16 ^ k * tolSq := by
        rw [div_le_iff₀ (by norm_num : (0 : ℚ) < 16)]
        calc secondDiffMax p0 p1 p2 p3 ≤ 16 ^ (k + 1) * tolSq := h
          _ = 16 ^ k * tolSq * 16 := by ring
      have hl := le_trans (secondDiffMax_subdiv_left p0 p1 p2 p3) hstep
      have hr := le_trans (secondDiffMax_subdiv_right p0 p1 p2 p3) hstep
      obtain ⟨ls, hls⟩ := Option.isSome_iff_exists.mp (ih _ _ _ _ tolSq hl)
      obtain ⟨rs, hrs⟩ := Option.isSome_iff_exists.mp (ih _ _ _ _ tolSq hr)
      simp only [flattenFuel, if_neg hf, hls, hrs]
      rfl

theorem spine_subdiv_left (h : ℚ) :
    (subdivideBezier (spineCubic h).p0 (spineCubic h).p1 (spineCubic h).p2
        (spineCubic h).p3).1 = spineCubic (h / 2) := by
  dsimp only [spineCubic, subdivideBezier]
  congr 1 <;> simp only [Pt.mk.injEq] <;> constructor <;> ring

theorem distPointToLineSq_origin (px py x2 y2 : ℚ) (hl : x2 * x2 + y2 * y2 ≠ 0) :
    distPointToLineSq px py 0 0 x2 y2 * (x2 * x2 + y2 * y2) =
      (px * y2 - py * x2) ^ 2 := by
  have hl' : (x2 - 0) * (x2 - 0) + (y2 - 0) * (y2 - 0) ≠ 0 := by
    intro h0
    exact hl (by linarith [h0])
  dsimp only [distPointToLineSq]
  rw [if_neg hl']
  field_simp
  ring

set_option maxHeartbeats 1000000 in
theorem spine_not_flat (h : ℚ) (h1 : 1 / 2 ^ 24 ≤ h) (h2 : h ≤ 1) :
    ¬ isFlatEnough (spineCubic h).p0 (spineCubic h).p1 (spineCubic h).p2
        (spineCubic h).p3 (1 / 4) := by
  have h0 : 0 < h := lt_of_lt_of_le (by norm_num) h1
  have hh2 : (1 : ℚ) / 2 ^ 48 ≤ h ^ 2 := by nlinarith [sq_nonneg (h - 1 / 2 ^ 24)]
  have hh4 : (1 : ℚ) / 2 ^ 96 ≤ h ^ 4 := by nlinarith [sq_nonneg (h ^ 2 - 1 / 2 ^ 48)]
  intro hf
  obtain ⟨hd1, _⟩ := hf
  dsimp only [spineCubic] at hd1
  set b : ℚ := 2 ^ 60 * h with hb
  set c : ℚ := 2 ^ 50 * h ^ 2 * (3 - 2 * h) with hc
  set d : ℚ := 3 * 2 ^ 60 * h * (1 - h) with hd
  have hcpos : 0 < c := by
    rw [hc]; nlinarith [sq_nonneg h]
  have hdnn : 0 ≤ d := by
    rw [hd]; nlinarith []
  have hlpos : 0 < c * c + d * d := by nlinarith []
  have hcross := distPointToLineSq_origin 0 b c d (ne_of_gt hlpos)
  have hd1l : distPointToLineSq 0 b 0 0 c d * (c * c + d * d) ≤ 1 / 4 * (c * c + d * d) :=
    mul_le_mul_of_nonneg_right hd1 hlpos.le
  rw [hcross] at hd1l
  -- hd1l : (0 * d - b * c)^2 ≤ 1/4 * (c*c + d*d), i.e. 4 b²c² ≤ c² + d²
  have hb2 : (2 : ℚ) ^ 72 ≤ b ^ 2 := by
    rw [hb]; nlinarith [hh2]
  have hc2 : (2 : ℚ) ^ 100 * h ^ 4 ≤ c ^ 2 := by
    rw [hc]
    nlinarith [sq_nonneg h, sq_nonneg (h ^ 2), hh4, sq_nonneg (1 - h),
      sq_nonneg (h ^ 2 * (1 - h)), pow_pos h0 4]
  have hd2 : d ^ 2 ≤ 9 * 2 ^ 120 * h ^ 2 := by
    rw [hd]; nlinarith [sq_nonneg (h * (1 - h)), sq_nonneg h, sq_nonneg (h * h)]
  have hlt1 : c ^ 2 < 2 * (b ^ 2 * c ^ 2) := by nlinarith [mul_pos hcpos hcpos, hb2]
  have hbc : (2 : ℚ) ^ 72 * (2 ^ 100 * h ^ 4) ≤ b ^ 2 * c ^ 2 := by
    have hc2nn : (0 : ℚ) ≤ 2 ^ 100 * h ^ 4 := by positivity
    calc (2 : ℚ) ^ 72 * (2 ^ 100 * h ^ 4) ≤ b ^ 2 * (2 ^ 100 * h ^ 4) := by
          nlinarith [hc2nn, hb2]
      _ ≤ b ^ 2 * c ^ 2 := by nlinarith [hc2, sq_nonneg b]
  have hlt2 : d ^ 2 < 2 * (b ^ 2 * c ^ 2) := by
    nlinarith [hd2, hbc, hh4, hh2, sq_nonneg h]
  nlinarith [hd1l, hlt1, hlt2]

theorem spine_flattenFuel_none :
    ∀ (n : ℕ) (h : ℚ), 0 < h → h ≤ 1 → 1 / 2 ^ 24 ≤ h / 2 ^ n →
      flattenFuel n (spineCubic h).p0 (spineCubic h).p1 (spineCubic h).p2
          (spineCubic h).p3 (1 / 4) = none := by
  intro n
  induction n with
  | zero =>
    intro h h0 h1 hbig
    rw [pow_zero, div_one] at hbig
    simp only [flattenFuel, if_neg (spine_not_flat h hbig h1)]
  | succ n ih =>
    intro h h0 h1 hbig
    have hp : (0 : ℚ) < 2 ^ (n + 1) := by positivity
    have h2n : (1 : ℚ) ≤ 2 ^ (n + 1) := by
      calc (1 : ℚ) = 1 ^ (n + 1) := (one_pow (n + 1)).symm
        _ ≤ 2 ^ (n + 1) := by gcongr <;> norm_num
    have hble : 1 / 2 ^ 24 ≤ h := by
      have step : (1 : ℚ) / 2 ^ 24 * 1 ≤ h / 2 ^ (n + 1) * 2 ^ (n + 1) := by
        have hq : (0 : ℚ) ≤ h / 2 ^ (n + 1) := by positivity
        have base : (1 : ℚ) / 2 ^ 24 * 1 ≤ h / 2 ^ (n + 1) * 1 := by nlinarith [hbig]
        nlinarith [hq, h2n, hbig]
      have hcancel : h / 2 ^ (n + 1) * 2 ^ (n + 1) = h := by field_simp
      linarith [step, hcancel.le, hcancel.ge]
    have hrec :
        flattenFuel n (spineCubic (h / 2)).p0 (spineCubic (h / 2)).p1
            (spineCubic (h / 2)).p2 (spineCubic (h / 2)).p3 (1 / 4) = none := by
      refine ih (h / 2) (by linarith) (by linarith) ?_
      calc (1 : ℚ) / 2 ^ 24 ≤ h / 2 ^ (n + 1) := hbig
        _ = h / 2 / 2 ^ n := by rw [pow_succ]; ring
    simp only [flattenFuel, if_neg (spine_not_flat h hble h1), spine_subdiv_left, hrec]

/-- The original cubic of the spine family. -/
theorem spineCubic_one :
    spineCubic 1 = ⟨⟨0, 0⟩, ⟨0, 2 ^ 60⟩, ⟨2 ^ 50, 2 ^ 60⟩, ⟨2 ^ 50, 0⟩⟩ := by
  dsimp only [spineCubic]
  congr 1 <;> simp only [Pt.mk.injEq] <;> constructor <;> ring

/-- C2 (amended): for every cubic segment and every tolerance `tolSq > 0`
the adaptive flattening recursion terminates: some finite recursion budget
suffices.  Termination comes from the geometric decay of the control-polygon
second differences under subdivision — the code contains no defensive
recursion-depth cap and no endpoint fallback (see `c2_counterexample`). -/
theorem c2_flatten_terminates (p0 p1 p2 p3 : Pt) (tolSq : ℚ) (ht : 0 < tolSq) :
    ∃ n, (flattenFuel n p0 p1 p2 p3 tolSq).isSome = true := by
  obtain ⟨n, hn⟩ :=
    pow_unbounded_of_one_lt (secondDiffMax p0 p1 p2 p3 / tolSq)
      (by norm_num : (1 : ℚ) < 16)
  exact ⟨n, flattenFuel_isSome_of_bound n p0 p1 p2 p3 tolSq
    (le_of_lt ((div_lt_iff₀ ht).mp hn))⟩

/-- Witness for `c2_flatten_terminates` at a concrete cubic and the code's
tolerance `0.5^2 = 1/4`. -/
theorem c2_flatten_terminates_witness :
    0 < (1 / 4 : ℚ) ∧
      ∃ n, (flattenFuel n ⟨0, 0⟩ ⟨0, 1⟩ ⟨1, 1⟩ ⟨1, 0⟩ (1 / 4)).isSome = true :=
  ⟨by norm_num,
    c2_flatten_terminates ⟨0, 0⟩ ⟨0, 1⟩ ⟨1, 1⟩ ⟨1, 0⟩ (1 / 4) (by norm_num)⟩

/-- C2 (counterexample to the claimed depth cap): on the cubic
`(0,0), (0,2^60), (2^50,2^60), (2^50,0)` with the code's tolerance `1/4`, a
recursion budget of 24 is exhausted (`flattenFuel` returns `none`, meaning
the JS recursion descends deeper than 24 levels); had the code capped the
depth at 24 and emitted the endpoint as a fallback, flattening would have
completed within that budget. -/
theorem c2_counterexample :
    flattenFuel 24 ⟨0, 0⟩ ⟨0, 2 ^ 60⟩ ⟨2 ^ 50, 2 ^ 60⟩ ⟨2 ^ 50, 0⟩ (1 / 4) = none := by
  have hnone := spine_flattenFuel_none 24 1 one_pos le_rfl (by norm_num)
  rw [spineCubic_one] at hnone
  exact hnone

/-- A cubic whose interior control points coincide with its endpoints is
immediately flat for any nonnegative tolerance. -/
theorem isFlatEnough_degenerate (p q : Pt) (tolSq : ℚ) (h : 0 ≤ tolSq) :
    isFlatEnough p p q q tolSq := by
  constructor
  · have hz : distPointToLineSq p.x p.y p.x p.y q.x q.y = 0 := by
      dsimp only [distPointToLineSq]
      split
      · ring
      · ring
    rw [hz]
    exact h
  · have hz : distPointToLineSq q.x q.y p.x p.y q.x q.y = 0 := by
      dsimp only [distPointToLineSq]
      split
      · rename_i h0
        have e1 : q.x = p.x := by
          nlinarith [mul_self_nonneg (q.x - p.x), mul_self_nonneg (q.y - p.y)]
        have e2 : q.y = p.y := by
          nlinarith [mul_self_nonneg (q.x - p.x), mul_self_nonneg (q.y - p.y)]
        rw [e1, e2]
        ring
      · rename_i h0
        field_simp
    rw [hz]
    exact h

theorem flattenFuel_degenerate (fuel : ℕ) (p q : Pt) (tolSq : ℚ) (h : 0 ≤ tolSq) :
    flattenFuel fuel p p q q tolSq = some [q] := by
  cases fuel <;>
    simp only [flattenFuel, if_pos (isFlatEnough_degenerate p q tolSq h)]

theorem flattenBezierAdaptive_degenerate (p q : Pt) (tolSq : ℚ) (h : 0 ≤ tolSq) :
    flattenBezierAdaptive p p q q tolSq = [q] := by
  unfold flattenBezierAdaptive
  rw [flattenFuel_degenerate _ p q tolSq h]
  rfl

/-! ### Claim C1: the closing guard -/

/-- C1 (amended): with 0–2 anchors, every canvas-level close path — press on
the canvas (within or outside the closing radius), press on an anchor,
Enter, Escape, double-click — leaves the closed flag unchanged, so none of
them can close the shape; the host-level Close Shape button, however, sets
closed to true unconditionally, even with 0–2 anchors. -/
theorem c1_close_guard (s : EditorState) (pt : Pt) (i : ℕ)
    (hlen : s.anchors.length ≤ 2) :
    (onMouseDown s pt).isClosed = s.isClosed ∧
      (onAnchorMouseDown s i pt).isClosed = s.isClosed ∧
      (onKeyEnter s).isClosed = s.isClosed ∧
      (onKeyEscape s).isClosed = s.isClosed ∧
      (onDoubleClick s).isClosed = s.isClosed ∧
      (closeShapeButton s).isClosed = true := by
  have h3 : ¬ 3 ≤ s.anchors.length := by omega
  refine ⟨?_, ?_, ?_, ?_, ?_, rfl⟩
  · dsimp only [onMouseDown]
    split
    · rfl
    · split
      · rfl
      · rw [if_neg fun hcon => h3 hcon.1]
        rfl
  · dsimp only [onAnchorMouseDown]
    rw [if_neg fun hcon => h3 hcon.2.2]
  · dsimp only [onKeyEnter]
    rw [if_neg h3]
  · dsimp only [onKeyEscape]
    rw [if_neg h3]
  · dsimp only [onDoubleClick]
    rw [if_neg fun hcon => h3 hcon.2]

/-- Witness for `c1_close_guard` on the empty editor state. -/
theorem c1_close_guard_witness :
    (onKeyEnter initialState).isClosed = initialState.isClosed ∧
      (closeShapeButton initialState).isClosed = true := by
  have h := c1_close_guard initialState ⟨0, 0⟩ 0 (by decide)
  exact ⟨h.2.2.1, h.2.2.2.2.2⟩

/-- C1 (counterexample): the claim asserts that attempting to close with 0–2
anchors leaves closed = false for every close operation including the
host-level Close control; but the Close Shape button closes the empty shape
(0 anchors). -/
theorem c1_counterexample :
    initialState.anchors.length = 0 ∧ initialState.isClosed = false ∧
      (closeShapeButton initialState).isClosed = true :=
  ⟨rfl, rfl, rfl⟩

/-! ### Claim C3: flattening starts at anchor 0 -/

theorem cubicAt_zero (p0 p1 p2 p3 : ℚ) : cubicAt p0 p1 p2 p3 0 = p0 := by
  dsimp only [cubicAt]
  ring

theorem sampleSegment_cons (x0 y0 x1 y1 x2 y2 x3 y3 : ℚ) :
    ∃ t, sampleSegment x0 y0 x1 y1 x2 y2 x3 y3 = ⟨x0, y0⟩ :: t := by
  dsimp only [sampleSegment, BEZIER_SEGMENTS]
  rw [List.range_succ_eq_map, List.map_cons]
  have hh :
      (⟨cubicAt x0 x1 x2 x3 (((0 : ℕ) : ℚ) / ((20 : ℕ) : ℚ)),
          cubicAt y0 y1 y2 y3 (((0 : ℕ) : ℚ) / ((20 : ℕ) : ℚ))⟩ : Pt) = ⟨x0, y0⟩ := by
    norm_num [cubicAt_zero]
  rw [hh]
  exact ⟨_, rfl⟩

/-- C3 (amended): the adaptive flattener of `src/unnamed/part_001` yields,
for every shape with at least 1 anchor, a non-empty polyline starting at
anchor 0's position; the fixed-sampling flattener of
`src/site/src/components/ShapeBuilder/index.js` does so only for shapes with
at least 2 anchors — with exactly 1 anchor it yields the empty polyline
(see `c3_counterexample`). -/
theorem c3_flatten_head :
    (∀ (a0 : Anchor) (rest : List Anchor) (closed : Bool),
        flattenToPoints (a0 :: rest) closed ≠ [] ∧
          (flattenToPoints (a0 :: rest) closed).head? = some ⟨a0.x, a0.y⟩) ∧
      ∀ (a0 a1 : Anchor) (rest : List Anchor) (closed : Bool),
        flattenToPointsFixed (a0 :: a1 :: rest) closed ≠ [] ∧
          (flattenToPointsFixed (a0 :: a1 :: rest) closed).head? = some ⟨a0.x, a0.y⟩ := by
  constructor
  · intro a0 rest closed
    dsimp only [flattenToPoints]
    split
    · exact ⟨by simp, by simp⟩
    · exact ⟨by simp, by simp⟩
  · intro a0 a1 rest closed
    obtain ⟨t, ht⟩ :=
      sampleSegment_cons a0.x a0.y a0.handleOut.x a0.handleOut.y
        a1.handleIn.x a1.handleIn.y a1.x a1.y
    dsimp only [flattenToPointsFixed, segPairs]
    simp only [List.tail_cons, List.zip_cons_cons, List.map_cons, List.flatten_cons, ht]
    split
    · exact ⟨by simp, by simp⟩
    · exact ⟨by simp, by simp⟩

/-- Witness for `c3_flatten_head` on a concrete one-anchor shape (adaptive
flattener). -/
theorem c3_flatten_head_witness :
    flattenToPoints [⟨1, 2, ⟨1, 2⟩, ⟨1, 2⟩⟩] false ≠ [] ∧
      (flattenToPoints [⟨1, 2, ⟨1, 2⟩, ⟨1, 2⟩⟩] false).head? = some ⟨1, 2⟩ :=
  c3_flatten_head.1 ⟨1, 2, ⟨1, 2⟩, ⟨1, 2⟩⟩ [] false

/-- C3 (counterexample): the fixed-sampling flattener of
`src/site/src/components/ShapeBuilder/index.js` maps a one-anchor shape to
the empty polyline, although the claim promises a non-empty polyline
starting at the anchor's position for every shape with at least 1 anchor. -/
theorem c3_counterexample :
    flattenToPointsFixed [⟨10, 10, ⟨10, 10⟩, ⟨10, 10⟩⟩] false = [] := rfl

/-! ### Claim C9: freshly placed anchors -/

theorem foldl_addAnchor_anchors (ps : List Pt) :
    ∀ s : EditorState,
      (ps.foldl (fun st p => addAnchor p.x p.y true st) s).anchors =
        s.anchors ++ ps.map fun p => (⟨p.x, p.y, ⟨p.x, p.y⟩, ⟨p.x, p.y⟩⟩ : Anchor) := by
  induction ps with
  | nil => intro s; simp
  | cons p t ih =>
    intro s
    rw [List.foldl_cons, ih]
    dsimp only [addAnchor]
    rw [List.map_cons, List.append_assoc]
    rfl

theorem flatten_fresh_tail (tolSq : ℚ) (htol : 0 ≤ tolSq) :
    ∀ (t : List Pt) (a : Pt),
      (List.map
          (fun pc : Anchor × Anchor =>
            flattenBezierAdaptive ⟨pc.1.x, pc.1.y⟩ pc.1.handleOut pc.2.handleIn
              ⟨pc.2.x, pc.2.y⟩ tolSq)
          (segPairs
            ((⟨a.x, a.y, ⟨a.x, a.y⟩, ⟨a.x, a.y⟩⟩ : Anchor) ::
              t.map fun p => (⟨p.x, p.y, ⟨p.x, p.y⟩, ⟨p.x, p.y⟩⟩ : Anchor)))).flatten = t := by
  intro t
  induction t with
  | nil => intro a; rfl
  | cons b t' ih =>
    intro a
    dsimp only [segPairs, List.map_cons, List.tail_cons]
    rw [List.zip_cons_cons, List.map_cons, List.flatten_cons]
    have hseg :
        flattenBezierAdaptive ⟨a.x, a.y⟩ ⟨a.x, a.y⟩ ⟨b.x, b.y⟩ ⟨b.x, b.y⟩ tolSq =
          [⟨b.x, b.y⟩] := flattenBezierAdaptive_degenerate ⟨a.x, a.y⟩ ⟨b.x, b.y⟩ tolSq htol
    rw [hseg]
    have ht' := ih b
    dsimp only [segPairs, List.map_cons, List.tail_cons] at ht'
    rw [ht']
    rfl

/-- C9: `addAnchor` appends an anchor whose two handles coincide with its
position, and a shape built by placing a sequence of anchors (with handles
left untouched) flattens to exactly the straight polyline through those
anchors, in order. -/
theorem c9_fresh_anchor :
    (∀ (x y : ℚ) (placing : Bool) (s : EditorState),
        (addAnchor x y placing s).anchors =
          s.anchors ++ [⟨x, y, ⟨x, y⟩, ⟨x, y⟩⟩]) ∧
      ∀ ps : List Pt,
        flattenToPoints
            ((ps.foldl (fun st p => addAnchor p.x p.y true st) initialState).anchors)
            false = ps := by
  refine ⟨fun x y placing s => rfl, fun ps => ?_⟩
  rw [foldl_addAnchor_anchors ps initialState]
  show flattenToPoints (ps.map fun p => (⟨p.x, p.y, ⟨p.x, p.y⟩, ⟨p.x, p.y⟩⟩ : Anchor)) false = ps
  match ps with
  | [] => rfl
  | a :: t =>
    dsimp only [List.map_cons, flattenToPoints]
    rw [if_neg (by simp)]
    have htail :=
      flatten_fresh_tail (FLATNESS_TOLERANCE * FLATNESS_TOLERANCE) (by norm_num [FLATNESS_TOLERANCE]) t a
    rw [htail]

/-- Witness for `c9_fresh_anchor`: appending an anchor at `(3, 4)` to the
empty editor. -/
theorem c9_fresh_anchor_witness :
    (addAnchor 3 4 true initialState).anchors =
      initialState.anchors ++ [⟨3, 4, ⟨3, 4⟩, ⟨3, 4⟩⟩] :=
  c9_fresh_anchor.1 3 4 true initialState

/-! ### Claim C4: the symmetric handle edit law -/

/-- C4: for a valid anchor index, setting handle `key` to `(hx, hy)` with
`symmetric = true` makes that handle `(hx, hy)` and relocates the opposite
handle to exactly `(2*anchor.x - hx, 2*anchor.y - hy)` (the reflection of
the new handle through the anchor position), leaving the anchor position
itself unchanged; with `symmetric = false` only handle `key` changes; in
both modes every other anchor of the array is untouched. -/
theorem c4_symmetric_handle (anchors : List Anchor) (i : ℕ) (key : HandleKey)
    (hx hy : ℚ) (a : Anchor) (h : anchors.get? i = some a) :
    (((updateAnchorHandle anchors i key hx hy true).get? i).map
          fun b => b.getHandle key) = some ⟨hx, hy⟩ ∧
      (((updateAnchorHandle anchors i key hx hy true).get? i).map
          fun b => b.getHandle key.opposite) = some ⟨2 * a.x - hx, 2 * a.y - hy⟩ ∧
      (((updateAnchorHandle anchors i key hx hy true).get? i).map
          fun b => (b.x, b.y)) = some (a.x, a.y) ∧
      (((updateAnchorHandle anchors i key hx hy false).get? i).map
          fun b => b.getHandle key) = some ⟨hx, hy⟩ ∧
      (((updateAnchorHandle anchors i key hx hy false).get? i).map
          fun b => b.getHandle key.opposite) = some (a.getHandle key.opposite) ∧
      (((updateAnchorHandle anchors i key hx hy false).get? i).map
          fun b => (b.x, b.y)) = some (a.x, a.y) ∧
      ∀ j, j ≠ i →
        (updateAnchorHandle anchors i key hx hy true).get? j = anchors.get? j ∧
          (updateAnchorHandle anchors i key hx hy false).get? j = anchors.get? j := by
  have hi : i < anchors.length := List.get?_eq_some.mp h |>.1
  have hsetT :
      updateAnchorHandle anchors i key hx hy true =
        anchors.set i ((a.setHandle key ⟨hx, hy⟩).setHandle key.opposite
          ⟨(a.setHandle key ⟨hx, hy⟩).x - (hx - (a.setHandle key ⟨hx, hy⟩).x),
            (a.setHandle key ⟨hx, hy⟩).y - (hy - (a.setHandle key ⟨hx, hy⟩).y)⟩) := by
    dsimp only [updateAnchorHandle]
    rw [h]
    rfl
  have hsetF :
      updateAnchorHandle anchors i key hx hy false =
        anchors.set i (a.setHandle key ⟨hx, hy⟩) := by
    dsimp only [updateAnchorHandle]
    rw [h]
    rfl
  have hposT : (a.setHandle key ⟨hx, hy⟩).x = a.x ∧ (a.setHandle key ⟨hx, hy⟩).y = a.y := by
    cases key <;> exact ⟨rfl, rfl⟩
  refine ⟨?_, ?_, ?_, ?_, ?_, ?_, ?_⟩
  · rw [hsetT, List.get?_set_eq_of_lt _ hi]
    cases key <;> simp [Anchor.setHandle, Anchor.getHandle, HandleKey.opposite]
  · rw [hsetT, List.get?_set_eq_of_lt _ hi]
    cases key <;>
      simp [Anchor.setHandle, Anchor.getHandle, HandleKey.opposite, Pt.mk.injEq] <;>
      constructor <;> ring
  · rw [hsetT, List.get?_set_eq_of_lt _ hi]
    cases key <;> simp [Anchor.setHandle, Anchor.getHandle, HandleKey.opposite]
  · rw [hsetF, List.get?_set_eq_of_lt _ hi]
    cases key <;> simp [Anchor.setHandle, Anchor.getHandle]
  · rw [hsetF, List.get?_set_eq_of_lt _ hi]
    cases key <;> simp [Anchor.setHandle, Anchor.getHandle, HandleKey.opposite]
  · rw [hsetF, List.get?_set_eq_of_lt _ hi]
    cases key <;> simp [Anchor.setHandle]
  · intro j hj
    rw [hsetT, hsetF, List.get?_set_ne _ _ (fun e => hj e.symm),
      List.get?_set_ne _ _ (fun e => hj e.symm)]
    exact ⟨rfl, rfl⟩

/-- Witness for `c4_symmetric_handle`: anchor at `(1, 2)`, handleOut dragged
to `(5, 7)` symmetrically relocates handleIn to `(-3, -3) = 2*(1,2) - (5,7)`. -/
theorem c4_symmetric_handle_witness :
    (((updateAnchorHandle [⟨1, 2, ⟨1, 2⟩, ⟨1, 2⟩⟩] 0 .handleOut 5 7 true).get? 0).map
        fun b => b.getHandle HandleKey.handleOut.opposite) = some ⟨2 * 1 - 5, 2 * 2 - 7⟩ :=
  (c4_symmetric_handle [⟨1, 2, ⟨1, 2⟩, ⟨1, 2⟩⟩] 0 .handleOut 5 7 ⟨1, 2, ⟨1, 2⟩, ⟨1, 2⟩⟩ rfl).2.1

/-! ### Claim C10: moving an anchor translates it rigidly -/

/-- C10: for a valid index, the move-anchor update translates the anchor's
position and both of its handles by the same delta — so the handles' offsets
relative to the anchor position are preserved — and leaves every other
anchor unchanged. -/
theorem c10_move_anchor (anchors : List Anchor) (idx : ℕ) (dx dy : ℚ) (a : Anchor)
    (h : anchors.get? idx = some a) :
    (moveAnchorUpdate anchors idx dx dy).get? idx =
        some ⟨a.x + dx, a.y + dy,
          ⟨a.handleIn.x + dx, a.handleIn.y + dy⟩,
          ⟨a.handleOut.x + dx, a.handleOut.y + dy⟩⟩ ∧
      (((moveAnchorUpdate anchors idx dx dy).get? idx).map
          fun b => (b.handleIn.x - b.x, b.handleIn.y - b.y)) =
        some (a.handleIn.x - a.x, a.handleIn.y - a.y) ∧
      (((moveAnchorUpdate anchors idx dx dy).get? idx).map
          fun b => (b.handleOut.x - b.x, b.handleOut.y - b.y)) =
        some (a.handleOut.x - a.x, a.handleOut.y - a.y) ∧
      ∀ j, j ≠ idx → (moveAnchorUpdate anchors idx dx dy).get? j = anchors.get? j := by
  have hi : idx < anchors.length := List.get?_eq_some.mp h |>.1
  have hset :
      moveAnchorUpdate anchors idx dx dy =
        anchors.set idx
          ⟨a.x + dx, a.y + dy,
            ⟨a.handleIn.x + dx, a.handleIn.y + dy⟩,
            ⟨a.handleOut.x + dx, a.handleOut.y + dy⟩⟩ := by
    dsimp only [moveAnchorUpdate]
    rw [h]
  refine ⟨?_, ?_, ?_, ?_⟩
  · rw [hset, List.get?_set_eq_of_lt _ hi]
  · rw [hset, List.get?_set_eq_of_lt _ hi]
    simp only [Option.map_some']
    congr 1 <;> ring
  · rw [hset, List.get?_set_eq_of_lt _ hi]
    simp only [Option.map_some']
    congr 1 <;> ring
  · intro j hj
    rw [hset, List.get?_set_ne _ _ fun e => hj e.symm]

/-- Witness for `c10_move_anchor`: the single anchor of a one-anchor array,
translated by `(3, -1)`. -/
theorem c10_move_anchor_witness :
    (moveAnchorUpdate [⟨1, 2, ⟨0, 0⟩, ⟨4, 4⟩⟩] 0 3 (-1)).get? 0 =
      some ⟨1 + 3, 2 + -1, ⟨0 + 3, 0 + -1⟩, ⟨4 + 3, 4 + -1⟩⟩ :=
  (c10_move_anchor [⟨1, 2, ⟨0, 0⟩, ⟨4, 4⟩⟩] 0 3 (-1) ⟨1, 2, ⟨0, 0⟩, ⟨4, 4⟩⟩ rfl).1

/-! ### Claim C8: close a 4-anchor shape, then undo -/

/-- C8: after closing a 4-anchor shape with Enter, Ctrl/Cmd+Z reopens it
(closed = false) and removes exactly the most recently added anchor: the
anchor array becomes the first 3 anchors, unchanged (positions and both
handles included, since the surviving anchors are equal as records). -/
theorem c8_close_then_undo (s : EditorState) (hlen : s.anchors.length = 4)
    (hopen : s.isClosed = false) :
    (onKeyEnter s).isClosed = true ∧
      (onKeyUndo (onKeyEnter s)).isClosed = false ∧
      (onKeyUndo (onKeyEnter s)).anchors = s.anchors.take 3 ∧
      (onKeyUndo (onKeyEnter s)).anchors.length = 3 := by
  have h3 : 3 ≤ s.anchors.length := by omega
  have henter : onKeyEnter s = { s with isClosed := true } := by
    dsimp only [onKeyEnter]
    rw [if_pos h3]
  have hanch : (onKeyUndo (onKeyEnter s)).anchors = s.anchors.dropLast := by
    rw [henter]
    rfl
  refine ⟨by rw [henter], rfl, ?_, ?_⟩
  · rw [hanch, List.dropLast_eq_take, hlen]
  · rw [hanch, List.length_dropLast, hlen]

/-- Witness for `c8_close_then_undo` on a concrete 4-anchor square. -/
theorem c8_close_then_undo_witness :
    (onKeyUndo (onKeyEnter
        ⟨[⟨0, 0, ⟨0, 0⟩, ⟨0, 0⟩⟩, ⟨1, 0, ⟨1, 0⟩, ⟨1, 0⟩⟩,
          ⟨1, 1, ⟨1, 1⟩, ⟨1, 1⟩⟩, ⟨0, 1, ⟨0, 1⟩, ⟨0, 1⟩⟩], false, none⟩)).anchors =
      ([⟨0, 0, ⟨0, 0⟩, ⟨0, 0⟩⟩, ⟨1, 0, ⟨1, 0⟩, ⟨1, 0⟩⟩,
        ⟨1, 1, ⟨1, 1⟩, ⟨1, 1⟩⟩, ⟨0, 1, ⟨0, 1⟩, ⟨0, 1⟩⟩] : List Anchor).take 3 :=
  (c8_close_then_undo
    ⟨[⟨0, 0, ⟨0, 0⟩, ⟨0, 0⟩⟩, ⟨1, 0, ⟨1, 0⟩, ⟨1, 0⟩⟩,
      ⟨1, 1, ⟨1, 1⟩, ⟨1, 1⟩⟩, ⟨0, 1, ⟨0, 1⟩, ⟨0, 1⟩⟩], false, none⟩ rfl rfl).2.2.1

/-! ### Claim C6: scale-about-centroid (modelled from the spec) -/

/-- C6 (amended): scale-about-centroid captures the baseline on the first
invocation and recomputes every anchor/handle from that fixed baseline as
`centroid + (baseline - centroid) * multiplier`; hence the result of a
second call depends only on its own multiplier — scale(m1) followed by
scale(m2) equals scale(m2) alone, not a compounding of the two.  In
particular scale(2.0) followed by scale(0.5) yields
`centroid + (baseline - centroid) * 0.5`, which equals the original baseline
only for degenerate baselines (see `c6_counterexample`). -/
theorem c6_scale_about_centroid (base : List Anchor) (m1 m2 : ℚ) :
    (scaleAboutCentroid (scaleAboutCentroid none base m1).1
          (scaleAboutCentroid none base m1).2 m2).2 =
        base.map (scaleAnchorAbout (baselineCentroid base) m2) ∧
      (scaleAboutCentroid (scaleAboutCentroid none base m1).1
          (scaleAboutCentroid none base m1).2 m2).2 =
        (scaleAboutCentroid none base m2).2 :=
  ⟨rfl, rfl⟩

/-- Witness for `c6_scale_about_centroid` on a concrete one-anchor baseline
with multipliers 2 and 1/2. -/
theorem c6_scale_about_centroid_witness :
    (scaleAboutCentroid (scaleAboutCentroid none [⟨0, 0, ⟨0, 0⟩, ⟨0, 0⟩⟩] 2).1
          (scaleAboutCentroid none [⟨0, 0, ⟨0, 0⟩, ⟨0, 0⟩⟩] 2).2 (1 / 2)).2 =
      (scaleAboutCentroid none [⟨0, 0, ⟨0, 0⟩, ⟨0, 0⟩⟩] (1 / 2)).2 :=
  (c6_scale_about_centroid [⟨0, 0, ⟨0, 0⟩, ⟨0, 0⟩⟩] 2 (1 / 2)).2

/-- C6 (counterexample): on the two-anchor baseline `(0,0), (2,0)` (handles
coincident), scale(2.0) followed by scale(0.5) yields anchors at `(1/2, 0)`
and `(3/2, 0)` — the deviations from the centroid halved — not the original
baseline, contradicting Scenario E's expectation that the composition
restores the baseline. -/
theorem c6_counterexample :
    (scaleAboutCentroid
          (scaleAboutCentroid none
            [⟨0, 0, ⟨0, 0⟩, ⟨0, 0⟩⟩, ⟨2, 0, ⟨2, 0⟩, ⟨2, 0⟩⟩] 2).1
          (scaleAboutCentroid none
            [⟨0, 0, ⟨0, 0⟩, ⟨0, 0⟩⟩, ⟨2, 0, ⟨2, 0⟩, ⟨2, 0⟩⟩] 2).2 (1 / 2)).2 ≠
      [⟨0, 0, ⟨0, 0⟩, ⟨0, 0⟩⟩, ⟨2, 0, ⟨2, 0⟩, ⟨2, 0⟩⟩] := by
  with_unfolding_all decide

/-! ### Claims C5 and C7: the normalizer / exporter -/

theorem round4_bounds (v : ℚ) (h1 : -1 ≤ v) (h2 : v ≤ 1) :
    -1 ≤ round4 v ∧ round4 v ≤ 1 := by
  have m1 : round (v * 10000) ≤ round ((10000 : ℚ)) := by
    rw [round_eq, round_eq]
    exact Int.floor_le_floor (by linarith)
  have m2 : round ((-10000 : ℚ)) ≤ round (v * 10000) := by
    rw [round_eq, round_eq]
    exact Int.floor_le_floor (by linarith)
  have e1 : round ((10000 : ℚ)) = 10000 := by
    rw [show ((10000 : ℚ)) = ((10000 : ℤ) : ℚ) by norm_num, round_intCast]
  have e2 : round ((-10000 : ℚ)) = -10000 := by
    rw [show ((-10000 : ℚ)) = ((-10000 : ℤ) : ℚ) by norm_num, round_intCast]
  rw [e1] at m1
  rw [e2] at m2
  dsimp only [round4]
  constructor
  · rw [le_div_iff₀ (by norm_num : (0 : ℚ) < 10000)]
    have : ((-10000 : ℤ) : ℚ) ≤ ((round (v * 10000) : ℤ) : ℚ) := by exact_mod_cast m2
    push_cast at this ⊢
    linarith
  · rw [div_le_one (by norm_num : (0 : ℚ) < 10000)]
    have : ((round (v * 10000) : ℤ) : ℚ) ≤ ((10000 : ℤ) : ℚ) := by exact_mod_cast m1
    push_cast at this ⊢
    linarith

theorem normalize_eq_spec (p : Pt) (rest : List Pt) :
    normalizePoints (p :: rest) = specNormalizePoints (p :: rest) := by
  have hwx : 0 ≤ jsMax p.x (rest.map Pt.x) - jsMin p.x (rest.map Pt.x) := by
    have h1 := jsMin_le_seed p.x (rest.map Pt.x)
    have h2 := seed_le_jsMax p.x (rest.map Pt.x)
    linarith
  have hwy : 0 ≤ jsMax p.y (rest.map Pt.y) - jsMin p.y (rest.map Pt.y) := by
    have h1 := jsMin_le_seed p.y (rest.map Pt.y)
    have h2 := seed_le_jsMax p.y (rest.map Pt.y)
    linarith
  have hdiv :
      (if max (jsMax p.x (rest.map Pt.x) - jsMin p.x (rest.map Pt.x))
            (jsMax p.y (rest.map Pt.y) - jsMin p.y (rest.map Pt.y)) = 0 then (1 : ℚ)
        else max (jsMax p.x (rest.map Pt.x) - jsMin p.x (rest.map Pt.x))
          (jsMax p.y (rest.map Pt.y) - jsMin p.y (rest.map Pt.y))) =
        (if jsMax p.x (rest.map Pt.x) - jsMin p.x (rest.map Pt.x) = 0 ∧
              jsMax p.y (rest.map Pt.y) - jsMin p.y (rest.map Pt.y) = 0 then (1 : ℚ)
          else max (jsMax p.x (rest.map Pt.x) - jsMin p.x (rest.map Pt.x))
            (jsMax p.y (rest.map Pt.y) - jsMin p.y (rest.map Pt.y))) := by
    by_cases hm :
        max (jsMax p.x (rest.map Pt.x) - jsMin p.x (rest.map Pt.x))
          (jsMax p.y (rest.map Pt.y) - jsMin p.y (rest.map Pt.y)) = 0
    · rw [if_pos hm, if_pos]
      constructor
      · exact le_antisymm (hm ▸ le_max_left _ _) hwx
      · exact le_antisymm (hm ▸ le_max_right _ _) hwy
    · rw [if_neg hm, if_neg]
      intro hcon
      exact hm (by rw [hcon.1, hcon.2]; exact max_self 0)
  dsimp only [normalizePoints, specNormalizePoints]
  rw [hdiv]

theorem exportList_bounds (p : Pt) (rest : List Pt) :
    ∀ q ∈ exportList (p :: rest), -1 ≤ q ∧ q ≤ 1 := by
  intro q hq
  dsimp only [exportList, normalizePoints] at hq
  rw [List.mem_flatten] at hq
  obtain ⟨l, hl, hql⟩ := hq
  rw [List.mem_map] at hl
  obtain ⟨np, hnp, rfl⟩ := hl
  rw [List.mem_map] at hnp
  obtain ⟨q0, hq0, rfl⟩ := hnp
  -- bounding-box facts for q0
  have hxlo : jsMin p.x (rest.map Pt.x) ≤ q0.x := by
    rcases List.mem_cons.mp hq0 with rfl | hmem
    · exact jsMin_le_seed _ _
    · exact jsMin_le_mem _ _ _ (List.mem_map_of_mem Pt.x hmem)
  have hxhi : q0.x ≤ jsMax p.x (rest.map Pt.x) := by
    rcases List.mem_cons.mp hq0 with rfl | hmem
    · exact seed_le_jsMax _ _
    · exact mem_le_jsMax _ _ _ (List.mem_map_of_mem Pt.x hmem)
  have hylo : jsMin p.y (rest.map Pt.y) ≤ q0.y := by
    rcases List.mem_cons.mp hq0 with rfl | hmem
    · exact jsMin_le_seed _ _
    · exact jsMin_le_mem _ _ _ (List.mem_map_of_mem Pt.y hmem)
  have hyhi : q0.y ≤ jsMax p.y (rest.map Pt.y) := by
    rcases List.mem_cons.mp hq0 with rfl | hmem
    · exact seed_le_jsMax _ _
    · exact mem_le_jsMax _ _ _ (List.mem_map_of_mem Pt.y hmem)
  set wx : ℚ := jsMax p.x (rest.map Pt.x) - jsMin p.x (rest.map Pt.x) with hwx
  set wy : ℚ := jsMax p.y (rest.map Pt.y) - jsMin p.y (rest.map Pt.y) with hwy
  set size : ℚ := if max wx wy = 0 then 1 else max wx wy with hsize
  have hwxnn : 0 ≤ wx := by rw [hwx]; linarith
  have hwynn : 0 ≤ wy := by rw [hwy]; linarith
  have hsizepos : 0 < size := by
    rw [hsize]
    by_cases hm : max wx wy = 0
    · rw [if_pos hm]; norm_num
    · rw [if_neg hm]
      rcases lt_or_eq_of_le (le_max_of_le_left hwxnn) with hlt | heq
      · exact hlt
      · exact absurd heq.symm hm
  have hwxle : wx ≤ size := by
    rw [hsize]
    by_cases hm : max wx wy = 0
    · rw [if_pos hm]
      have : wx ≤ max wx wy := le_max_left _ _
      rw [hm] at this
      linarith
    · rw [if_neg hm]; exact le_max_left _ _
  have hwyle : wy ≤ size := by
    rw [hsize]
    by_cases hm : max wx wy = 0
    · rw [if_pos hm]
      have : wy ≤ max wx wy := le_max_right _ _
      rw [hm] at this
      linarith
    · rw [if_neg hm]; exact le_max_right _ _
  have hbx :
      -1 ≤ (q0.x - (jsMin p.x (rest.map Pt.x) + jsMax p.x (rest.map Pt.x)) / 2) * 2 / size ∧
        (q0.x - (jsMin p.x (rest.map Pt.x) + jsMax p.x (rest.map Pt.x)) / 2) * 2 / size ≤ 1 := by
    constructor
    · rw [le_div_iff₀ hsizepos]
      rw [hwx] at hwxle
      linarith
    · rw [div_le_one hsizepos]
      rw [hwx] at hwxle
      linarith
  have hby :
      -1 ≤ (q0.y - (jsMin p.y (rest.map Pt.y) + jsMax p.y (rest.map Pt.y)) / 2) * 2 / size ∧
        (q0.y - (jsMin p.y (rest.map Pt.y) + jsMax p.y (rest.map Pt.y)) / 2) * 2 / size ≤ 1 := by
    constructor
    · rw [le_div_iff₀ hsizepos]
      rw [hwy] at hwyle
      linarith
    · rw [div_le_one hsizepos]
      rw [hwy] at hwyle
      linarith
  rcases List.mem_cons.mp hql with rfl | hql'
  · exact round4_bounds _ hbx.1 hbx.2
  · rcases List.mem_cons.mp hql' with rfl | hnil
    · exact round4_bounds _ hby.1 hby.2
    · cases hnil

/-- C5: for every non-empty polyline the normalizer agrees with the spec's
formula — each point maps to `round4 ((p - center) * 2 / divisor)` with
center the bounding-box midpoint and divisor `max(width, height)` (1 when
both are 0) — every exported coordinate lies in `[-1, 1]`, and the export
string is the alternating `x,y,x,y,...` rendering joined with single
spaces. -/
theorem c5_normalize_export (p : Pt) (rest : List Pt) :
    normalizePoints (p :: rest) = specNormalizePoints (p :: rest) ∧
      (∀ q ∈ exportList (p :: rest), -1 ≤ q ∧ q ≤ 1) ∧
      exportOfPoints (p :: rest) =
        String.intercalate " " ((exportList (p :: rest)).map render4) :=
  ⟨normalize_eq_spec p rest, exportList_bounds p rest, rfl⟩

/-- Witness for `c5_normalize_export` on the polyline `(0,0), (2,0)`: the
exported coordinate `1` (from the point `(2,0)`) is within `[-1, 1]`, and
the normalizer agrees with the spec formula there. -/
theorem c5_normalize_export_witness :
    normalizePoints [⟨0, 0⟩, ⟨2, 0⟩] = specNormalizePoints [⟨0, 0⟩, ⟨2, 0⟩] ∧
      (-1 ≤ (1 : ℚ) ∧ (1 : ℚ) ≤ 1) := by
  have h := c5_normalize_export ⟨0, 0⟩ [⟨2, 0⟩]
  exact ⟨h.1, h.2.1 1 (by with_unfolding_all decide)⟩

/-- C7: when the polyline's bounding box has zero width and zero height the
normalizer's divisor falls back to 1 — the mapping is total and each point
maps through `round4 ((p - center) * 2 / 1)`; a one-anchor shape at
`(10, 10)` exports the well-defined string `"0 0"`, and the empty polyline
exports exactly the empty string. -/
theorem c7_degenerate_bbox :
    (∀ (p : Pt) (rest : List Pt),
        jsMax p.x (rest.map Pt.x) - jsMin p.x (rest.map Pt.x) = 0 →
          jsMax p.y (rest.map Pt.y) - jsMin p.y (rest.map Pt.y) = 0 →
          normalizePoints (p :: rest) =
            (p :: rest).map fun q =>
              (⟨round4 ((q.x -
                    (jsMin p.x (rest.map Pt.x) + jsMax p.x (rest.map Pt.x)) / 2) * 2 / 1),
                round4 ((q.y -
                    (jsMin p.y (rest.map Pt.y) + jsMax p.y (rest.map Pt.y)) / 2) * 2 / 1)⟩ : Pt)) ∧
      computeExportString [⟨10, 10, ⟨10, 10⟩, ⟨10, 10⟩⟩] false = "0 0" ∧
      exportOfPoints [] = "" := by
  refine ⟨?_, ?_, rfl⟩
  · intro p rest hx hy
    dsimp only [normalizePoints]
    rw [hx, hy, max_self 0, if_pos rfl]
  · with_unfolding_all rfl

/-- Witness for `c7_degenerate_bbox` on the single-point polyline
`[(10, 10)]`, whose bounding box has zero width and height. -/
theorem c7_degenerate_bbox_witness :
    normalizePoints [⟨10, 10⟩] =
      ([⟨10, 10⟩] : List Pt).map fun q =>
        (⟨round4 ((q.x - (jsMin (10 : ℚ) (([] : List Pt).map Pt.x) +
              jsMax (10 : ℚ) (([] : List Pt).map Pt.x)) / 2) * 2 / 1),
          round4 ((q.y - (jsMin (10 : ℚ) (([] : List Pt).map Pt.y) +
              jsMax (10 : ℚ) (([] : List Pt).map Pt.y)) / 2) * 2 / 1)⟩ : Pt) :=
  c7_degenerate_bbox.1 ⟨10, 10⟩ [] (by with_unfolding_all rfl) (by with_unfolding_all rfl)

end ShapeBuilder
